import Mathlib

set_option maxRecDepth 100000

/-!
Verification development for the `CodebaseIndexer` core of the Alloy
repository (file `src/services/merkle.ts`, current revision: the variant
with scoring, dependency expansion and the polyglot regex constants).

The TypeScript class is shallowly embedded: the mutable fields
(`hashMap`, `symbolMap`, `dependencyMap`, `root`) become an explicit
`IndexerState` record threaded through every method; JavaScript `Map`s
become insertion-ordered association lists (`Map.set` updates an existing
key in place and appends a fresh one, `Map.keys`/`Map.entries` iterate in
insertion order); the filesystem is a partial map from paths to entries;
`async` methods that may reject are given an `Except` result channel, and
a `try`/`catch` in the source becomes a total function.  SHA-256 is
modelled as an injective digest function (only determinism and collision
freedom are relied on, exactly what the spec demands of the hasher).
Node's `path` helpers are modelled for POSIX paths, and the module-level
regular expressions are modelled by executable scanners that mirror the
regex semantics (alternatives tried left to right, matches scanned left
to right and non-overlapping, greedy character classes).
-/

/-! ## Association lists with JavaScript `Map` semantics -/

/-- Lookup of the first binding of a key, as `Map.get`. -/
def mapGet {α : Type} : List (String × α) → String → Option α
  | [], _ => none
  | (k', v) :: t, k => if k' = k then some v else mapGet t k

/-- Lookup with a default value, as `map.get(k) || d`. -/
def mapGetD {α : Type} (m : List (String × α)) (k : String) (d : α) : α :=
  (mapGet m k).getD d

/-- `Map.set`: update an existing binding in place, else append. -/
def mapSet {α : Type} : List (String × α) → String → α → List (String × α)
  | [], k, v => [(k, v)]
  | (k', v') :: t, k, v => if k' = k then (k, v) :: t else (k', v') :: mapSet t k v

/-- `Set.add` on an insertion-ordered list: append if absent. -/
def setAdd (l : List String) (x : String) : List String :=
  if x ∈ l then l else l ++ [x]

/-- Insertion-ordered deduplication, as `new Set(array)` / `Array.from`. -/
def dedupFirst (l : List String) : List String :=
  l.foldl setAdd []

/-! ## String helpers mirroring the JavaScript string API -/

/-- Helper for `String.includes`: does `needle` occur inside `hay`? -/
def includesAux (needle : List Char) : List Char → Bool
  | [] => needle.isEmpty
  | c :: rest => needle.isPrefixOf (c :: rest) || includesAux needle rest

/-- `hay.includes(needle)` of JavaScript. -/
def strIncludes (hay needle : String) : Bool :=
  includesAux needle.toList hay.toList

/-! ## Node `path` helpers (POSIX form, as used by the indexer) -/

/-- `path.basename`: the part after the last slash. -/
def basename (p : String) : String :=
  String.mk ((p.toList.reverse.takeWhile (fun c => c != '/')).reverse)

/-- `path.dirname`: everything before the last slash. -/
def dirname (p : String) : String :=
  let r := p.toList.reverse.dropWhile (fun c => c != '/')
  match r with
  | [] => "."
  | _ :: rest => if rest.isEmpty then "/" else String.mk rest.reverse

/-- `path.parse(p).name`: the base name with its final extension removed
(a lone leading dot is kept, as in Node). -/
def pathParseName (p : String) : String :=
  let b := basename p
  let r := b.toList.reverse
  let post := r.dropWhile (fun c => c != '.')
  match post with
  | [] => b
  | _ :: rest => if rest.isEmpty then b else String.mk rest.reverse

/-- Split a character list at every occurrence of a separator, keeping
empty fragments (the semantics of `String.splitOn` with a one-character
separator). -/
def splitOnChar (sep : Char) (l : List Char) : List (List Char) :=
  l.foldr
    (fun c acc =>
      if c == sep then [] :: acc
      else
        match acc with
        | [] => [[c]]
        | g :: gs => (c :: g) :: gs)
    [[]]

/-- Join path segments with slashes. -/
def joinSlash : List String → String
  | [] => ""
  | [s] => s
  | s :: rest => s ++ "/" ++ joinSlash rest

/-- `path.resolve(dir, imp)` for an absolute `dir`: make the path
absolute and normalise `.` and `..` segments. -/
def pathResolve (dir imp : String) : String :=
  let isAbs : Bool :=
    match imp.toList with
    | c :: _ => c == '/'
    | [] => false
  let full := if isAbs then imp else dir ++ "/" ++ imp
  let segs := ((splitOnChar '/' full.toList).map (fun g => String.mk g)).filter
    (fun s => decide (s ≠ "") && decide (s ≠ "."))
  let outSegs := segs.foldl
    (fun acc s => if s = ".." then acc.dropLast else acc ++ [s]) ([] : List String)
  "/" ++ joinSlash outSegs

/-- `path.join(root, f)` where `root` is absolute and `f` relative:
coincides with `path.resolve` in every use the indexer makes of it. -/
def pathJoin (a b : String) : String := pathResolve a b

/-- `path.relative(root, p)` for the indexer's use (a `p` that lies
under the absolute workspace root): strip the root prefix. -/
def pathRelative (root p : String) : String :=
  if (root ++ "/").toList.isPrefixOf p.toList then
    String.mk (p.toList.drop (root.toList.length + 1))
  else p

/-! ## Module-level constants of `merkle.ts` -/

/-- The built-in exclusion globs merged with user ignores before the
`glob` call (the glob engine itself is external to the core; its result,
or its failure, is an input of `refreshIndex` below). -/
def DEFAULT_IGNORES : List String :=
  ["**/node_modules/**", "**/bower_components/**", "**/dist/**", "**/out/**", "**/build/**",
   "**/.venv/**", "**/venv/**", "**/env/**", "**/__pycache__/**", "**/*.pyc", "**/*.pyo",
   "**/target/**", "**/bin/**", "**/obj/**", "**/vendor/**",
   "**/.git/**", "**/.svn/**", "**/.idea/**", "**/.vscode/**", "**/.DS_Store",
   "**/*.min.js", "**/*.map", "**/*.svg", "**/*.png", "**/*.jpg", "**/*.json", "**/*.lock", "**/*.log"]

/-- `SUPPORTED_EXTENSIONS`, in source order (the empty extension first). -/
def SUPPORTED_EXTENSIONS : List String :=
  ["", ".ts", ".js", ".tsx", ".jsx", ".mjs", ".cjs",
   ".py", ".pyw", ".java", ".kt", ".scala",
   ".go", ".rs", ".c", ".cpp", ".h", ".hpp", ".cs",
   ".php", ".rb", ".swift", ".dart", ".lua"]

/-- The `STOP_WORDS` set. -/
def STOP_WORDS : List String :=
  ["const", "let", "var", "function", "class", "import", "from", "return",
   "async", "await", "if", "else", "for", "while", "try", "catch", "new",
   "this", "true", "false", "null", "undefined", "export", "default",
   "interface", "type", "module", "require", "include", "package", "namespace",
   "public", "private", "protected", "void", "int", "string", "bool"]

/-- The local `indexExtensions` list of `resolveImportPath`. -/
def INDEX_EXTENSIONS : List String :=
  ["/index.js", "/index.ts", "/__init__.py", "/main.go", "/mod.rs"]

/-- The declaration keywords of `REGEX_DEF`, in alternation order. -/
def DEF_KEYWORDS : List String :=
  ["function", "class", "def", "func", "fn", "fun", "struct", "interface",
   "enum", "trait", "type", "impl", "module", "package"]

/-- The import keywords of `REGEX_IMPORT_QUOTED`, in alternation order. -/
def IMPORT_KEYWORDS : List String :=
  ["import", "from", "require", "include", "use"]

/-! ## Executable models of the module-level regexes -/

/-- Whitespace, as matched by the regexes' white-space class on the ASCII
source text the indexer scans. -/
def isWsChar (c : Char) : Bool :=
  c == ' ' || c.toNat == 9 || c.toNat == 10 || c.toNat == 13

/-- The identifier class of the capture groups: alphanumeric or
underscore. -/
def isIdentChar (c : Char) : Bool :=
  c.isAlphanum || c == '_'

/-- The filler class of `REGEX_IMPORT_QUOTED` between the keyword and the
quote: word characters, whitespace, braces, comma and star. -/
def isMidChar (c : Char) : Bool :=
  isIdentChar c || isWsChar c || c.toNat == 123 || c.toNat == 125 || c == ',' || c == '*'

/-- A single or double quote. -/
def isQuoteChar (c : Char) : Bool :=
  c.toNat == 39 || c.toNat == 34

/-- Try `REGEX_DEF` at the head of `l`: some keyword (alternatives tried
in order), then one or more white-space characters, then a non-empty
identifier, which is captured. Returns the capture and the rest of the
input after the whole match. -/
def matchKws (kws : List String) (l : List Char) : Option (String × List Char) :=
  match kws with
  | [] => none
  | kw :: rest =>
    let kl := kw.toList
    if kl.isPrefixOf l then
      let r1 := l.drop kl.length
      if (r1.takeWhile isWsChar).isEmpty then matchKws rest l
      else
        let r2 := r1.dropWhile isWsChar
        let id := r2.takeWhile isIdentChar
        if id.isEmpty then matchKws rest l
        else some (String.mk id, r2.drop id.length)
    else matchKws rest l

/-- Try `REGEX_IMPORT_QUOTED` at the head of `l`: a keyword, one or more
white-space characters, a possibly-empty run of filler characters, an
opening quote, a non-empty capture without quotes, and a closing quote
(either kind, as in the regex). -/
def matchImportKws (kws : List String) (l : List Char) : Option (String × List Char) :=
  match kws with
  | [] => none
  | kw :: rest =>
    let kl := kw.toList
    if kl.isPrefixOf l then
      let r1 := l.drop kl.length
      if (r1.takeWhile isWsChar).isEmpty then matchImportKws rest l
      else
        let r2 := (r1.dropWhile isWsChar).dropWhile isMidChar
        match r2 with
        | [] => matchImportKws rest l
        | qc :: r3 =>
          if isQuoteChar qc then
            let cap := r3.takeWhile (fun c => !(isQuoteChar c))
            if cap.isEmpty then matchImportKws rest l
            else
              match r3.drop cap.length with
              | [] => matchImportKws rest l
              | _ :: r4 => some (String.mk cap, r4)
          else matchImportKws rest l
    else matchImportKws rest l

/-- Try `REGEX_IMPORT_ANGLE` at the head of `l`. -/
def matchAngle (l : List Char) : Option (String × List Char) :=
  let kl := ("#include").toList
  if kl.isPrefixOf l then
    let r1 := l.drop kl.length
    if (r1.takeWhile isWsChar).isEmpty then none
    else
      match r1.dropWhile isWsChar with
      | [] => none
      | c :: r2 =>
        if c == '<' then
          let cap := r2.takeWhile (fun ch => ch != '>')
          if cap.isEmpty then none
          else
            match r2.drop cap.length with
            | [] => none
            | _ :: r3 => some (String.mk cap, r3)
        else none
  else none

/-- Left-to-right, non-overlapping global scan, as a `while (exec)` loop
over a `/g` regex: try a match at every position, and continue after a
match's end. The fuel is the input length; every step consumes at least
one character, so the scan always completes within it. -/
def scanAux (step : List Char → Option (String × List Char)) : Nat → List Char → List String
  | 0, _ => []
  | _, [] => []
  | Nat.succ f, l@(_ :: t) =>
    match step l with
    | some (id, rest) => id :: scanAux step f rest
    | none => scanAux step f t

/-- All captures of `REGEX_DEF` over the content. -/
def extractDefs (content : String) : List String :=
  scanAux (matchKws DEF_KEYWORDS) content.toList.length content.toList

/-- All captures of `REGEX_IMPORT_QUOTED` over the content. -/
def extractQuotedImports (content : String) : List String :=
  scanAux (matchImportKws IMPORT_KEYWORDS) content.toList.length content.toList

/-- All captures of `REGEX_IMPORT_ANGLE` over the content. -/
def extractAngleImports (content : String) : List String :=
  scanAux matchAngle content.toList.length content.toList

/-- One capture attempt of `REGEX_IMPORT_PYTHON` at the start of a line:
`from` or `import`, one or more white-space characters, then a non-empty
run of word characters and dots. -/
def matchPyKws (kws : List String) (l : List Char) : Option String :=
  match kws with
  | [] => none
  | kw :: rest =>
    let kl := kw.toList
    if kl.isPrefixOf l then
      let r1 := l.drop kl.length
      if (r1.takeWhile isWsChar).isEmpty then matchPyKws rest l
      else
        let r2 := r1.dropWhile isWsChar
        let cap := r2.takeWhile (fun c => c.isAlphanum || c == '_' || c == '.')
        if cap.isEmpty then matchPyKws rest l else some (String.mk cap)
    else matchPyKws rest l

/-- All captures of the line-anchored `REGEX_IMPORT_PYTHON` (at most one
match per line, since after a match the anchor only holds again on the
next line). -/
def extractPythonImports (content : String) : List String :=
  (splitOnChar (Char.ofNat 10) content.toList).filterMap (fun line => matchPyKws ["from", "import"] line)

/-- The `.replace` of every dot by a slash applied to a Python-style
import. -/
def dotToSlash (s : String) : String :=
  String.mk (s.toList.map (fun c => if c == '.' then '/' else c))

/-! ## Data model -/

/-- A filesystem entry as the indexer observes it: a regular file with
its `stat` size and, when `readFile` succeeds, its decoded content
(`none` models a read or decode failure), or a directory. -/
inductive FsEntry where
  | file (size : Nat) (content : Option String)
  | dirE
deriving DecidableEq

/-- The filesystem: a partial map from absolute paths to entries; `none`
models a path on which `stat`/`access` fails. -/
def Fs : Type := String → Option FsEntry

/-- A leaf of the Merkle tree (`type: 'file'` nodes of the source). -/
structure FileNode where
  hash : String
  path : String
deriving DecidableEq

/-- A `MerkleNode` of the source in the shapes the code actually builds:
a file leaf, or a directory node whose children are file leaves (the
build never nests directory nodes). -/
inductive MerkleNode where
  | fileN (node : FileNode)
  | dirN (hash : String) (path : String) (children : List FileNode)
deriving DecidableEq

/-- The digest of a node. -/
def nodeHash : MerkleNode → String
  | MerkleNode.fileN n => n.hash
  | MerkleNode.dirN h _ _ => h

/-- The children of a node (files have none). -/
def nodeChildren : MerkleNode → List FileNode
  | MerkleNode.fileN _ => []
  | MerkleNode.dirN _ _ c => c

/-- The mutable fields of a `CodebaseIndexer` instance, plus its
constructor argument `workspaceRoot`. -/
structure IndexerState where
  workspaceRoot : String
  hashMap : List (String × String)
  symbolMap : List (String × List String)
  dependencyMap : List (String × List String)
  root : Option MerkleNode
deriving DecidableEq

/-- SHA-256 over the content, modelled as an injective digest (tagging
keeps every real digest distinct from the sentinels `skipped_large`,
`error` and the empty string). -/
def computeHash (content : String) : String :=
  "h:" ++ content

/-! ## Indexing operations -/

/-- `addSymbol`: drop candidates shorter than 3 characters or in the
stop-word set; otherwise add the declaring path to the symbol's list
unless it is already present. -/
def addSymbol (st : IndexerState) (symbol filePath : String) : IndexerState :=
  if symbol.length < 3 ∨ symbol ∈ STOP_WORDS then st
  else
    let existing := mapGetD st.symbolMap symbol []
    let existing2 := if filePath ∈ existing then existing else existing ++ [filePath]
    { st with symbolMap := mapSet st.symbolMap symbol existing2 }

/-- `resolveImportPath`: resolve relative to the importing file's
directory, then try the direct path, the supported extensions in order,
and the directory-index conventions in order, each against the indexed
file set; the `try`/`catch` of the source never fires here because the
modelled path arithmetic is total. -/
def resolveImportPath (st : IndexerState) (currentFile importPath : String) : Option String :=
  let base := pathResolve (dirname currentFile) importPath
  if (mapGet st.hashMap base).isSome then some base
  else
    match (SUPPORTED_EXTENSIONS.map (fun e => base ++ e)).find?
        (fun p => (mapGet st.hashMap p).isSome) with
    | some p => some p
    | none =>
      (INDEX_EXTENSIONS.map (fun e => base ++ e)).find?
        (fun p => (mapGet st.hashMap p).isSome)

/-- `indexContent`: record every `REGEX_DEF` capture as a declared
symbol, then resolve the three import idioms in source order and replace
the file's dependency entry wholesale. The source computes
`path.parse(filePath).name` into `fileName` but never uses it (the
older revision of `merkle.ts` registered it as an implicit symbol; the
current code does not). -/
def indexContent (st : IndexerState) (filePath content : String) : IndexerState :=
  let _fileName := pathParseName filePath
  let st1 := (extractDefs content).foldl (fun s sym => addSymbol s sym filePath) st
  let deps1 := (extractQuotedImports content).filterMap (resolveImportPath st1 filePath)
  let deps2 := (extractAngleImports content).filterMap (resolveImportPath st1 filePath)
  let deps3 := ((extractPythonImports content).map dotToSlash).filterMap (resolveImportPath st1 filePath)
  { st1 with dependencyMap := mapSet st1.dependencyMap filePath (deps1 ++ deps2 ++ deps3) }

/-- `processFile`: stat the file, skip it when larger than 500 KiB
(returning `null`, so it is omitted from the tree), read it, and
re-index it exactly when the recorded digest differs from the fresh one;
any `stat`/`read` failure is caught and yields `null`. -/
def processFile (st : IndexerState) (fs : Fs) (fullPath : String) : IndexerState × Option FileNode :=
  match fs fullPath with
  | some (FsEntry.file sz (some content)) =>
    if sz > 512000 then (st, none)
    else
      let h := computeHash content
      if mapGet st.hashMap fullPath = some h then (st, some ⟨h, fullPath⟩)
      else
        (indexContent { st with hashMap := mapSet st.hashMap fullPath h } fullPath content,
         some ⟨h, fullPath⟩)
  | _ => (st, none)

/-- `buildTree`: on a file path, mirror the per-file logic (with the
`skipped_large` and `error` sentinel leaves); on a directory, run
`processFile` over the enumerated files (the batched `Promise.all` loop
is modelled in enumeration order, which is the order its results are
folded in), drop the `null` results, and digest the concatenation of the
children's digests. An inaccessible path gives the empty-hash directory
node. -/
def buildTree (fs : Fs) (st : IndexerState) (currentPath : String) (allFiles : List String) :
    IndexerState × MerkleNode :=
  match fs currentPath with
  | none => (st, MerkleNode.dirN ("") currentPath [])
  | some (FsEntry.file sz contentOpt) =>
    if sz > 512000 then (st, MerkleNode.fileN ⟨"skipped_large", currentPath⟩)
    else
      match contentOpt with
      | none => (st, MerkleNode.fileN ⟨"error", currentPath⟩)
      | some content =>
        let h := computeHash content
        if mapGet st.hashMap currentPath = some h then (st, MerkleNode.fileN ⟨h, currentPath⟩)
        else
          (indexContent { st with hashMap := mapSet st.hashMap currentPath h } currentPath content,
           MerkleNode.fileN ⟨h, currentPath⟩)
  | some FsEntry.dirE =>
    let folded := allFiles.foldl
      (fun (acc : IndexerState × List FileNode) f =>
        let r := processFile acc.1 fs (pathJoin st.workspaceRoot f)
        match r.2 with
        | none => (r.1, acc.2)
        | some n => (r.1, acc.2 ++ [n]))
      (st, ([] : List FileNode))
    (folded.1,
     MerkleNode.dirN (computeHash (String.join (folded.2.map FileNode.hash))) st.workspaceRoot folded.2)

/-- `refreshIndex`: the `glob` call is external, so its outcome (the
enumerated relative paths, or a thrown error such as a malformed ignore
pattern or an inaccessible root) is an input. The whole body sits in a
`try`/`catch` whose handler only logs, so the returned promise always
resolves: a traversal failure leaves the state untouched and is *not*
re-thrown to the caller. -/
def refreshIndex (globResult : Except String (List String)) (fs : Fs) (st : IndexerState) :
    Except String IndexerState :=
  match globResult with
  | Except.error _ => Except.ok st
  | Except.ok files =>
    let r := buildTree fs st st.workspaceRoot files
    Except.ok { r.1 with root := some r.2 }

/-! ## The relevance engine (`findRelevantContext`) -/

/-- The token class of the query tokenizer's separator regex:
identifier characters plus dot and dash. -/
def isTokenChar (c : Char) : Bool :=
  c.isAlphanum || c == '_' || c == '.' || c == '-'

/-- `query.split(/[^a-zA-Z0-9_.-]+/)`: maximal runs of token characters
(the empty fragments the JavaScript split can produce are removed by the
length filter that always follows). -/
def splitTokens (s : String) : List String :=
  (s.toList.foldr
    (fun c acc =>
      if isTokenChar c then
        match acc with
        | [] => [[c]]
        | g :: gs => (c :: g) :: gs
      else [] :: acc)
    ([] : List (List Char))).map (fun g => String.mk g)

/-- The filtered query tokens: longer than 2 characters and not stop
words. -/
def queryTokensOf (q : String) : List String :=
  (splitTokens q).filter (fun t => t.length > 2 && !(decide (t ∈ STOP_WORDS)))

/-- `uniqueTokens`: the token set in first-occurrence order. -/
def uniqueTokensOf (q : String) : List String :=
  dedupFirst (queryTokensOf q)

/-- The explicitly mentioned files: indexed paths whose base name or
full path occurs literally in the query. -/
def explicitFilesOf (st : IndexerState) (q : String) : List String :=
  (st.hashMap.map Prod.fst).filter (fun f => strIncludes q (basename f) || strIncludes q f)

/-- Add `w` to a file's score (`current + weight` over the score map). -/
def bumpScore (m : List (String × ℚ)) (fp : String) (w : ℚ) : List (String × ℚ) :=
  mapSet m fp (mapGetD m fp 0 + w)

/-- Score one query token: every file declaring it gains
`10 / (declaringFileCount + 1)`. -/
def applyToken (st : IndexerState) (m : List (String × ℚ)) (t : String) : List (String × ℚ) :=
  match mapGet st.symbolMap t with
  | none => m
  | some files =>
    files.foldl (fun m2 fp => bumpScore m2 fp (10 / ((files.length : ℚ) + 1))) m

/-- The `fileScores` map after both scoring passes: first every explicit
file is set to the fixed boost 100, then the symbol weights are added. -/
def fileScoresL (st : IndexerState) (q : String) : List (String × ℚ) :=
  let base := (explicitFilesOf st q).foldl (fun m f => mapSet m f (100 : ℚ)) []
  (uniqueTokensOf q).foldl (applyToken st) base

/-- The total score of a file (0 when unscored). -/
def scoreOf (st : IndexerState) (q : String) (f : String) : ℚ :=
  mapGetD (fileScoresL st q) f 0

/-- Stable insertion step for the descending sort: a later element
passes every earlier element of strictly greater score and stops before
the first one of smaller-or-equal score. -/
def insertDesc (x : String × ℚ) : List (String × ℚ) → List (String × ℚ)
  | [] => [x]
  | y :: l => if y.2 ≤ x.2 then x :: y :: l else y :: insertDesc x l

/-- The stable descending sort `(a, b) => b[1] - a[1]` (JavaScript's
`Array.prototype.sort` is stable). -/
def sortByScoreDesc (l : List (String × ℚ)) : List (String × ℚ) :=
  l.foldr insertDesc []

/-- `sortedFiles`: the scored paths in descending score order, ties in
score-map insertion order. -/
def sortedFilesOf (st : IndexerState) (q : String) : List String :=
  (sortByScoreDesc (fileScoresL st q)).map Prod.fst

/-- `topMatches`: the seed set, the top 3 scored files. -/
def topMatchesOf (st : IndexerState) (q : String) : List String :=
  (sortedFilesOf st q).take 3

/-- `expandedFiles`: the seeds (a `Set` built from `topMatches`) plus
every dependency of a seed, in insertion order. -/
def expandedFilesOf (st : IndexerState) (q : String) : List String :=
  (topMatchesOf st q).foldl
    (fun acc f => (mapGetD st.dependencyMap f []).foldl setAdd acc)
    (dedupFirst (topMatchesOf st q))

/-- `filesToRead`: the expanded set capped at 8 files. -/
def filesToReadOf (st : IndexerState) (q : String) : List String :=
  (expandedFilesOf st q).take 8

/-- A `readFile` during content assembly: its success or failure. -/
def readFileFs (fs : Fs) (p : String) : Option String :=
  match fs p with
  | some (FsEntry.file _ c) => c
  | _ => none

/-- `findRelevantContext`: score, rank, expand, cap, and assemble the
content bundle. Per-file read failures are absorbed (the failing file
contributes the empty chunk), so the function is total in the state, the
filesystem and the query; when nothing was scored (hence nothing
expanded) it returns the distinguished no-match bundle. -/
def findRelevantContext (st : IndexerState) (fs : Fs) (q : String) : String :=
  let ftr := filesToReadOf st q
  if ftr.isEmpty then "No correlated files found."
  else
    String.join (ftr.map (fun fp =>
      match readFileFs fs fp with
      | some c => "\n\n--- RELATED FILE: " ++ pathRelative st.workspaceRoot fp ++ " ---\n" ++ c ++ "\n"
      | none => ""))

/-! ## Lemmas about the association-list maps -/

lemma mapGet_mapSet {α : Type} (m : List (String × α)) (k x : String) (v : α) :
    mapGet (mapSet m k v) x = if k = x then some v else mapGet m x := by
  induction m with
  | nil => simp [mapSet, mapGet]
  | cons hd t ih =>
    obtain ⟨k', v'⟩ := hd
    by_cases h1 : k' = k
    · subst h1
      by_cases h2 : k' = x <;> simp [mapSet, mapGet, h2]
    · by_cases h2 : k' = x
      · subst h2
        have h3 : ¬ k = k' := fun h => h1 h.symm
        simp [mapSet, mapGet, h1, h3]
      · simp [mapSet, mapGet, h1, h2, ih]

lemma mapGet_mem {α : Type} {m : List (String × α)} {k : String} {v : α}
    (h : mapGet m k = some v) : (k, v) ∈ m := by
  induction m with
  | nil => simp [mapGet] at h
  | cons hd t ih =>
    obtain ⟨k', v'⟩ := hd
    by_cases h1 : k' = k
    · subst h1
      simp [mapGet] at h
      subst h
      exact List.mem_cons_self _ _
    · simp [mapGet, h1] at h
      exact List.mem_cons_of_mem _ (ih h)

lemma mem_mapSet {α : Type} {m : List (String × α)} {k : String} {v : α} {p : String × α}
    (h : p ∈ mapSet m k v) : p = (k, v) ∨ p ∈ m := by
  induction m with
  | nil => simp [mapSet] at h; exact Or.inl h
  | cons hd t ih =>
    obtain ⟨k', v'⟩ := hd
    by_cases h1 : k' = k
    · subst h1
      simp [mapSet] at h
      rcases h with h | h
      · exact Or.inl (by simp [h])
      · exact Or.inr (List.mem_cons_of_mem _ h)
    · simp [mapSet, h1] at h
      rcases h with h | h
      · exact Or.inr (by simp [h])
      · rcases ih h with h2 | h2
        · exact Or.inl h2
        · exact Or.inr (List.mem_cons_of_mem _ h2)

/-! ## Characterising the score map -/

/-- The symbol-table entry consulted for a token (empty when absent). -/
def entryFilesOf (st : IndexerState) (t : String) : List String :=
  mapGetD st.symbolMap t []

/-- The amount one token adds to one file's score. -/
def tokenContrib (st : IndexerState) (t x : String) : ℚ :=
  (10 / (((entryFilesOf st t).length : ℚ) + 1)) * ((entryFilesOf st t).count x)

lemma mapGetD_bumpScore (m : List (String × ℚ)) (fp x : String) (w : ℚ) :
    mapGetD (bumpScore m fp w) x 0 = mapGetD m x 0 + (if fp = x then w else 0) := by
  unfold bumpScore mapGetD
  rw [mapGet_mapSet]
  by_cases h : fp = x
  · subst h; simp [mapGetD]
  · simp [h]

lemma foldl_bumpScore (files : List String) (m : List (String × ℚ)) (w : ℚ) (x : String) :
    mapGetD (files.foldl (fun m2 fp => bumpScore m2 fp w) m) x 0
      = mapGetD m x 0 + w * (files.count x) := by
  induction files generalizing m with
  | nil => simp
  | cons f t ih =>
    simp only [List.foldl_cons, ih, mapGetD_bumpScore]
    by_cases h : f = x
    · subst h
      simp [List.count_cons]
      ring
    · have h2 : ¬ (x = f) := fun h2 => h h2.symm
      simp [List.count_cons, h, h2]

lemma applyToken_get (st : IndexerState) (m : List (String × ℚ)) (t x : String) :
    mapGetD (applyToken st m t) x 0 = mapGetD m x 0 + tokenContrib st t x := by
  unfold applyToken
  cases h : mapGet st.symbolMap t with
  | none => unfold tokenContrib entryFilesOf mapGetD; simp [h]
  | some files =>
    rw [foldl_bumpScore]
    unfold tokenContrib entryFilesOf mapGetD
    simp [h]

lemma foldl_applyToken (st : IndexerState) (tokens : List String)
    (m : List (String × ℚ)) (x : String) :
    mapGetD (tokens.foldl (applyToken st) m) x 0
      = mapGetD m x 0 + ((tokens.map (fun t => tokenContrib st t x)).sum) := by
  induction tokens generalizing m with
  | nil => simp
  | cons t ts ih =>
    simp only [List.foldl_cons, ih, applyToken_get, List.map_cons, List.sum_cons]
    ring

lemma foldl_explicit (l : List String) (m0 : List (String × ℚ)) (x : String) :
    mapGetD (l.foldl (fun m f => mapSet m f (100 : ℚ)) m0) x 0
      = if x ∈ l then (100 : ℚ) else mapGetD m0 x 0 := by
  induction l generalizing m0 with
  | nil => simp
  | cons f t ih =>
    simp only [List.foldl_cons, ih]
    by_cases ht : x ∈ t
    · simp [ht]
    · by_cases hf : x = f
      · subst hf
        simp [ht, mapGetD, mapGet_mapSet]
      · have hf2 : ¬ (f = x) := fun h => hf h.symm
        simp [ht, hf, mapGetD, mapGet_mapSet, hf2]

/-- The closed form of a file's total score: the explicit boost when the
file is explicitly mentioned, plus the per-token symbol contributions. -/
lemma scoreOf_eq (st : IndexerState) (q x : String) :
    scoreOf st q x
      = (if x ∈ explicitFilesOf st q then (100 : ℚ) else 0)
        + ((uniqueTokensOf q).map (fun t => tokenContrib st t x)).sum := by
  unfold scoreOf fileScoresL
  rw [foldl_applyToken, foldl_explicit]
  by_cases h : x ∈ explicitFilesOf st q <;> simp [h, mapGetD, mapGet]

lemma tokenContrib_nonneg (st : IndexerState) (t x : String) :
    0 ≤ tokenContrib st t x := by
  unfold tokenContrib
  apply mul_nonneg
  · apply div_nonneg
    · norm_num
    · positivity
  · exact_mod_cast Nat.zero_le _

lemma tokenContrib_eq_zero {st : IndexerState} {t x : String}
    (h : x ∉ entryFilesOf st t) : tokenContrib st t x = 0 := by
  unfold tokenContrib
  rw [List.count_eq_zero.mpr h]
  simp

lemma tokenContrib_le_five {st : IndexerState} (t x : String)
    (hnd : ∀ p ∈ st.symbolMap, (p.2 : List String).Nodup) :
    tokenContrib st t x ≤ 5 := by
  by_cases hx : x ∈ entryFilesOf st t
  · have hnodup : (entryFilesOf st t).Nodup := by
      unfold entryFilesOf mapGetD
      cases h : mapGet st.symbolMap t with
      | none => simp
      | some files =>
        simpa using hnd (t, files) (mapGet_mem h)
    have hcount : (entryFilesOf st t).count x = 1 :=
      List.count_eq_one_of_mem hnodup hx
    have hlen : 1 ≤ (entryFilesOf st t).length :=
      List.length_pos.mpr (List.ne_nil_of_mem hx)
    unfold tokenContrib
    rw [hcount]
    have hlenq : (1 : ℚ) ≤ ((entryFilesOf st t).length : ℚ) := by exact_mod_cast hlen
    have hpos : (0 : ℚ) < ((entryFilesOf st t).length : ℚ) + 1 := by linarith
    rw [Nat.cast_one, mul_one, div_le_iff₀ hpos]
    linarith
  · rw [tokenContrib_eq_zero hx]
    norm_num

lemma contrib_sum_le (st : IndexerState) (x : String) (tokens : List String)
    (hnd : ∀ p ∈ st.symbolMap, (p.2 : List String).Nodup) :
    ((tokens.map (fun t => tokenContrib st t x)).sum)
      ≤ 5 * ((tokens.filter (fun t => decide (x ∈ entryFilesOf st t))).length : ℚ) := by
  induction tokens with
  | nil => simp
  | cons t ts ih =>
    by_cases hx : x ∈ entryFilesOf st t
    · have h5 := @tokenContrib_le_five st t x hnd
      simp only [List.map_cons, List.sum_cons, List.filter_cons, decide_eq_true_eq,
        if_pos hx, List.length_cons]
      push_cast
      linarith
    · simp only [List.map_cons, List.sum_cons, List.filter_cons, decide_eq_true_eq,
        if_neg hx, tokenContrib_eq_zero hx]
      simpa using ih

lemma contrib_sum_nonneg (st : IndexerState) (x : String) (tokens : List String) :
    0 ≤ ((tokens.map (fun t => tokenContrib st t x)).sum) := by
  apply List.sum_nonneg
  intro y hy
  rcases List.mem_map.mp hy with ⟨t, _, rfl⟩
  exact tokenContrib_nonneg st t x

/-! ## Lemmas about the descending stable sort -/

lemma mem_insertDesc {x z : String × ℚ} {l : List (String × ℚ)}
    (h : z ∈ insertDesc x l) : z = x ∨ z ∈ l := by
  induction l with
  | nil => simp [insertDesc] at h; exact Or.inl h
  | cons y t ih =>
    unfold insertDesc at h
    by_cases hc : y.2 ≤ x.2
    · rw [if_pos hc] at h
      rcases List.mem_cons.mp h with h | h
      · exact Or.inl h
      · exact Or.inr h
    · rw [if_neg hc] at h
      rcases List.mem_cons.mp h with h | h
      · exact Or.inr (by simp [h])
      · rcases ih h with h2 | h2
        · exact Or.inl h2
        · exact Or.inr (List.mem_cons_of_mem _ h2)

lemma pairwise_insertDesc (x : String × ℚ) (l : List (String × ℚ))
    (h : List.Pairwise (fun a b => b.2 ≤ a.2) l) :
    List.Pairwise (fun a b => b.2 ≤ a.2) (insertDesc x l) := by
  induction l with
  | nil => simp [insertDesc]
  | cons y t ih =>
    unfold insertDesc
    by_cases hc : y.2 ≤ x.2
    · rw [if_pos hc]
      constructor
      · intro z hz
        rcases List.mem_cons.mp hz with hz | hz
        · simpa [hz] using hc
        · exact le_trans ((List.pairwise_cons.mp h).1 z hz) hc
      · exact h
    · rw [if_neg hc]
      constructor
      · intro z hz
        rcases mem_insertDesc hz with hz | hz
        · subst hz; exact le_of_lt (lt_of_not_le hc)
        · exact (List.pairwise_cons.mp h).1 z hz
      · exact ih (List.pairwise_cons.mp h).2

/-- The sorted score list is ordered by non-increasing score. -/
lemma sortByScoreDesc_pairwise (l : List (String × ℚ)) :
    List.Pairwise (fun a b => b.2 ≤ a.2) (sortByScoreDesc l) := by
  induction l with
  | nil => simp [sortByScoreDesc]
  | cons a t ih => exact pairwise_insertDesc a _ ih

/-! ## Lemmas about the set-insert folds -/

lemma setAdd_grows (l : List String) (x : String) : l <+: setAdd l x := by
  unfold setAdd
  by_cases h : x ∈ l
  · simp [h]
  · simp [h]

lemma foldl_grows {β : Type} (step : List String → β → List String)
    (hstep : ∀ acc x, acc <+: step acc x) (l0 : List String) (xs : List β) :
    l0 <+: xs.foldl step l0 := by
  induction xs generalizing l0 with
  | nil => simp
  | cons x t ih => exact (hstep l0 x).trans (ih (step l0 x))

lemma setAdd_length (l : List String) (x : String) :
    (setAdd l x).length ≤ l.length + 1 := by
  unfold setAdd
  by_cases h : x ∈ l <;> simp [h]

lemma foldl_setAdd_length (xs : List String) (l0 : List String) :
    (xs.foldl setAdd l0).length ≤ l0.length + xs.length := by
  induction xs generalizing l0 with
  | nil => simp
  | cons x t ih =>
    calc (List.foldl setAdd (setAdd l0 x) t).length
        ≤ (setAdd l0 x).length + t.length := ih (setAdd l0 x)
      _ ≤ l0.length + 1 + t.length := by
          have := setAdd_length l0 x
          omega
      _ = l0.length + (t.length + 1) := by omega
      _ = l0.length + (x :: t).length := by simp

lemma isPrefix_take {l1 l2 : List String} {n : Nat}
    (h : l1 <+: l2) (hn : l1.length ≤ n) : l1 <+: l2.take n := by
  obtain ⟨t, rfl⟩ := h
  rw [List.take_append_eq_append_take]
  have h2 : l1.take n = l1 := List.take_of_length_le hn
  rw [h2]
  exact ⟨t.take (n - l1.length), rfl⟩

/-! ## C1: explicit-mention boost versus symbol scoring -/

/-- A state in which one file declares 21 distinct symbols, each unique
to it (weight 10/2 = 5 per token). -/
def c1SymbolEntries : List (String × List String) :=
  [("gamma01", ["/w/bee.ts"]), ("gamma02", ["/w/bee.ts"]), ("gamma03", ["/w/bee.ts"]),
   ("gamma04", ["/w/bee.ts"]), ("gamma05", ["/w/bee.ts"]), ("gamma06", ["/w/bee.ts"]),
   ("gamma07", ["/w/bee.ts"]), ("gamma08", ["/w/bee.ts"]), ("gamma09", ["/w/bee.ts"]),
   ("gamma10", ["/w/bee.ts"]), ("gamma11", ["/w/bee.ts"]), ("gamma12", ["/w/bee.ts"]),
   ("gamma13", ["/w/bee.ts"]), ("gamma14", ["/w/bee.ts"]), ("gamma15", ["/w/bee.ts"]),
   ("gamma16", ["/w/bee.ts"]), ("gamma17", ["/w/bee.ts"]), ("gamma18", ["/w/bee.ts"]),
   ("gamma19", ["/w/bee.ts"]), ("gamma20", ["/w/bee.ts"]), ("gamma21", ["/w/bee.ts"])]

def c1State : IndexerState :=
  ⟨"/w", [("/w/a.ts", "h:x"), ("/w/bee.ts", "h:y")], c1SymbolEntries, [], none⟩

def c1Query : String :=
  "a.ts gamma01 gamma02 gamma03 gamma04 gamma05 gamma06 gamma07 gamma08 gamma09 gamma10 gamma11 gamma12 gamma13 gamma14 gamma15 gamma16 gamma17 gamma18 gamma19 gamma20 gamma21"

def c1GammaTokens : List String :=
  ["gamma01", "gamma02", "gamma03", "gamma04", "gamma05", "gamma06", "gamma07",
   "gamma08", "gamma09", "gamma10", "gamma11", "gamma12", "gamma13", "gamma14",
   "gamma15", "gamma16", "gamma17", "gamma18", "gamma19", "gamma20", "gamma21"]

lemma assoc_pair_of_keys {l : List (String × ℚ)} {a b : String} (hne : a ≠ b)
    (hk : l.map Prod.fst = [a, b]) :
    l = [(a, mapGetD l a 0), (b, mapGetD l b 0)] := by
  cases l with
  | nil => simp at hk
  | cons x l2 =>
    cases l2 with
    | nil => simp at hk
    | cons y l3 =>
      cases l3 with
      | cons z l4 => simp at hk
      | nil =>
        obtain ⟨xa, va⟩ := x
        obtain ⟨ya, vb⟩ := y
        simp only [List.map_cons, List.map_nil, List.cons.injEq, and_true] at hk
        obtain ⟨h1, h2⟩ := hk
        subst h1
        subst h2
        unfold mapGetD
        simp [hne, Ne.symm hne, mapGet]

lemma c1_scoreA : scoreOf c1State c1Query ("/w/a.ts") = 100 := by
  have htok : uniqueTokensOf c1Query = ("a.ts") :: c1GammaTokens := by decide
  have hexp : explicitFilesOf c1State c1Query = [("/w/a.ts")] := by decide
  have hentryA : entryFilesOf c1State ("a.ts") = [] := by decide
  have hGentry : ∀ t ∈ c1GammaTokens, entryFilesOf c1State t = [("/w/bee.ts")] := by decide
  have hcAa : tokenContrib c1State ("a.ts") ("/w/a.ts") = 0 := by
    unfold tokenContrib
    rw [hentryA]
    norm_num
  have hcA : ∀ t ∈ c1GammaTokens, tokenContrib c1State t ("/w/a.ts") = 0 := by
    intro t ht
    unfold tokenContrib
    rw [hGentry t ht]
    have hc0 : List.count ("/w/a.ts") [("/w/bee.ts")] = 0 := by decide
    rw [hc0]
    norm_num
  rw [scoreOf_eq, htok, hexp, if_pos (by simp)]
  simp only [List.map_cons, List.sum_cons, hcAa]
  rw [List.map_congr_left hcA]
  norm_num [c1GammaTokens]

lemma c1_scoreB : scoreOf c1State c1Query ("/w/bee.ts") = 105 := by
  have htok : uniqueTokensOf c1Query = ("a.ts") :: c1GammaTokens := by decide
  have hexp : explicitFilesOf c1State c1Query = [("/w/a.ts")] := by decide
  have hentryA : entryFilesOf c1State ("a.ts") = [] := by decide
  have hGentry : ∀ t ∈ c1GammaTokens, entryFilesOf c1State t = [("/w/bee.ts")] := by decide
  have hcBa : tokenContrib c1State ("a.ts") ("/w/bee.ts") = 0 := by
    unfold tokenContrib
    rw [hentryA]
    norm_num
  have hcB : ∀ t ∈ c1GammaTokens, tokenContrib c1State t ("/w/bee.ts") = 5 := by
    intro t ht
    unfold tokenContrib
    rw [hGentry t ht]
    have hc1 : List.count ("/w/bee.ts") [("/w/bee.ts")] = 1 := by decide
    rw [hc1]
    norm_num
  rw [scoreOf_eq, htok, hexp, if_neg (by decide)]
  simp only [List.map_cons, List.sum_cons, hcBa]
  rw [List.map_congr_left hcB]
  norm_num [c1GammaTokens]

/-- C1, counterexample: the query mentions `a.ts` literally (score 100),
while `bee.ts` is reached only through symbol-token overlap; yet 21
unique-symbol tokens give `bee.ts` the total 21 · (10/2) = 105 > 100,
and the ranking puts the purely symbol-scored file strictly above the
explicitly mentioned one. -/
theorem explicitMention_counterexample :
    ("/w/a.ts") ∈ explicitFilesOf c1State c1Query
    ∧ ("/w/bee.ts") ∉ explicitFilesOf c1State c1Query
    ∧ scoreOf c1State c1Query ("/w/a.ts") < scoreOf c1State c1Query ("/w/bee.ts")
    ∧ sortedFilesOf c1State c1Query = [("/w/bee.ts"), ("/w/a.ts")] := by
  refine ⟨by decide, by decide, ?_, ?_⟩
  · rw [c1_scoreA, c1_scoreB]
    norm_num
  · have hkeys : (fileScoresL c1State c1Query).map Prod.fst = [("/w/a.ts"), ("/w/bee.ts")] := by
      decide
    have hne : ("/w/a.ts" : String) ≠ ("/w/bee.ts") := by decide
    have hAB := assoc_pair_of_keys hne hkeys
    have hA2 : mapGetD (fileScoresL c1State c1Query) ("/w/a.ts") 0 = 100 := c1_scoreA
    have hB2 : mapGetD (fileScoresL c1State c1Query) ("/w/bee.ts") 0 = 105 := c1_scoreB
    rw [hA2, hB2] at hAB
    unfold sortedFilesOf
    rw [hAB]
    norm_num [sortByScoreDesc, insertDesc]

/-- C1, amended: whenever at most 20 distinct query tokens hit the
purely symbol-scored file (so its symbol total is at most 20 · 5 = 100),
an explicitly mentioned file scores at least as high, and the ranking is
by non-increasing score. The symbol-table lists are assumed duplicate
free, which every `addSymbol` preserves. -/
theorem explicitMention_dominates_bounded (st : IndexerState) (q A B : String)
    (hA : A ∈ explicitFilesOf st q) (hB : B ∉ explicitFilesOf st q)
    (hnd : ∀ p ∈ st.symbolMap, (p.2 : List String).Nodup)
    (hcnt : ((uniqueTokensOf q).filter (fun t => decide (B ∈ entryFilesOf st t))).length ≤ 20) :
    scoreOf st q B ≤ scoreOf st q A
    ∧ List.Pairwise (fun a b => b.2 ≤ a.2) (sortByScoreDesc (fileScoresL st q)) := by
  constructor
  · have hAeq := scoreOf_eq st q A
    have hBeq := scoreOf_eq st q B
    rw [if_pos hA] at hAeq
    rw [if_neg hB] at hBeq
    have hsumA := contrib_sum_nonneg st A (uniqueTokensOf q)
    have hsumB := contrib_sum_le st B (uniqueTokensOf q) hnd
    have hc : (((uniqueTokensOf q).filter
        (fun t => decide (B ∈ entryFilesOf st t))).length : ℚ) ≤ 20 := by
      exact_mod_cast hcnt
    linarith
  · exact sortByScoreDesc_pairwise _

def c1WitnessState : IndexerState :=
  ⟨"/w", [("/w/a.ts", "h:x"), ("/w/bee.ts", "h:y")], [("gamma01", ["/w/bee.ts"])], [], none⟩

/-- C1, witness: the amended bound applied to a concrete state and
query. -/
theorem explicitMention_dominates_witness :
    scoreOf c1WitnessState ("a.ts gamma01") ("/w/bee.ts")
      ≤ scoreOf c1WitnessState ("a.ts gamma01") ("/w/a.ts") :=
  (explicitMention_dominates_bounded c1WitnessState ("a.ts gamma01") ("/w/a.ts") ("/w/bee.ts")
    (by decide) (by decide) (by decide) (by decide)).1

/-! ## C2: oversize files -/

/-- A workspace whose only enumerated file is 600 KiB large. -/
def c2Fs : Fs := fun s =>
  if s = ("/w") then some FsEntry.dirE
  else if s = ("/w/big.ts") then some (FsEntry.file 614400 (some ("xxx")))
  else none

def c2State : IndexerState := ⟨"/w", [], [], [], none⟩

/-- C2, counterexample: building the tree over a directory containing an
oversize file produces a root with *no* children at all — `processFile`
returns `null` for the oversize file, so no `skipped_large` leaf is
present in the tree and nothing of it reaches the root digest (which is
the digest of the empty concatenation). -/
theorem oversizeLeaf_counterexample :
    buildTree c2Fs c2State ("/w") [("big.ts")]
      = (c2State, MerkleNode.dirN (computeHash ("")) ("/w") []) := by
  decide

/-- C2, amended: an oversize file is never indexed (symbol, dependency
and digest tables are untouched) and is omitted from a directory build
entirely; the `skipped: too large` sentinel leaf only arises when the
tree build is invoked on the file's own path (the workspace root itself
being a file), where no aggregation into a root digest happens. -/
theorem oversizeSkip_amended (st : IndexerState) (fs : Fs) (p : String) (sz : Nat)
    (c : Option String) (files : List String)
    (hfs : fs p = some (FsEntry.file sz c)) (hsz : sz > 512000) :
    processFile st fs p = (st, none)
    ∧ buildTree fs st p files = (st, MerkleNode.fileN ⟨"skipped_large", p⟩) := by
  constructor
  · unfold processFile
    rw [hfs]
    cases c with
    | none => rfl
    | some content => simp [hsz]
  · unfold buildTree
    rw [hfs]
    simp [hsz]

/-- C2, witness: the amended statement evaluated on the concrete
oversize file. -/
theorem oversizeSkip_witness :
    processFile c2State c2Fs ("/w/big.ts") = (c2State, none)
    ∧ buildTree c2Fs c2State ("/w/big.ts") []
        = (c2State, MerkleNode.fileN ⟨"skipped_large", "/w/big.ts"⟩) :=
  oversizeSkip_amended c2State c2Fs ("/w/big.ts") 614400 (some ("xxx")) []
    (by decide) (by norm_num)

/-! ## C3: ignore exclusion is not retroactive -/

/-- A workspace with an ordinary file and a file under `secrets/`. -/
def c3Fs : Fs := fun s =>
  if s = ("/w") then some FsEntry.dirE
  else if s = ("/w/a.ts") then some (FsEntry.file 20 (some ("function alphaOne()")))
  else if s = ("/w/secrets/password.ts") then some (FsEntry.file 25 (some ("function secretThing()")))
  else none

def c3Init : IndexerState := ⟨"/w", [], [], [], none⟩

/-- A rebuild whose `glob` enumeration is `g` (adding an ignore pattern
only shrinks this enumeration; the body always resolves). -/
def c3Rebuild (g : List String) (st : IndexerState) : IndexerState :=
  match refreshIndex (Except.ok g) c3Fs st with
  | Except.ok s => s
  | Except.error _ => st

/-- The state after indexing both files and then rebuilding with the
ignore pattern `**/secrets/**` in force (the secrets file is no longer
enumerated). -/
def c3After : IndexerState :=
  c3Rebuild [("a.ts")] (c3Rebuild [("a.ts"), ("secrets/password.ts")] c3Init)

/-- C3: the rebuild that no longer enumerates `secrets/password.ts`
retains its digest entry, so a later query naming it still returns it —
the newly-ignored file appears in the bundle (via the explicit-mention
boost over the stale digest map) and its content is read and included.
This contradicts the claim that it never appears again. -/
theorem staleSecret_returned :
    mapGet c3After.hashMap ("/w/secrets/password.ts")
        = some (computeHash ("function secretThing()"))
    ∧ filesToReadOf c3After ("password.ts leaked") = [("/w/secrets/password.ts")]
    ∧ strIncludes (findRelevantContext c3After c3Fs ("password.ts leaked")) ("secretThing") = true := by
  refine ⟨by decide, by decide, by decide⟩

/-! ## C4: traversal failures and the rebuild call -/

def c4Fs : Fs := fun _ => none

def c4State : IndexerState :=
  ⟨"/w", [("/w/a.ts", "h:old")], [("alphaOne", ["/w/a.ts"])], [("/w/a.ts", [])], none⟩

/-- C4, counterexample: a failing `glob` (inaccessible root or a
malformed ignore pattern) does *not* make the rebuild call fail — the
`catch` block only logs, the promise resolves normally, and the caller
cannot tell the rebuild from a no-op. The previously-built index is
retained, but no error reaches the caller. -/
theorem rebuildError_counterexample :
    refreshIndex (Except.error ("EACCES: permission denied")) c4Fs c4State
      = Except.ok c4State := by
  rfl

/-- C4, amended: a traversal-level failure is caught inside
`refreshIndex` and only logged: the call itself resolves normally (it is
a silent no-op from the caller's perspective), and the previously-built
index — digest map, symbol table and dependency table — is retained
unchanged. -/
theorem rebuildError_amended (e : String) (fs : Fs) (st : IndexerState) :
    refreshIndex (Except.error e) fs st = Except.ok st := by
  rfl

/-! ## C5: the query never fails and signals no-match explicitly -/

/-- C5: whenever nothing scored (no explicit mention and no symbol-token
hit — and hence nothing was dependency-expanded), `findRelevantContext`
returns the distinguished no-match bundle, which is not the empty
bundle; the function itself is total in the state, the filesystem and
the query, every per-file read failure during content assembly being
absorbed as an empty chunk by construction. -/
theorem noMatch_sentinel (st : IndexerState) (fs : Fs) (q : String)
    (h : fileScoresL st q = []) :
    findRelevantContext st fs q = ("No correlated files found.")
    ∧ ("No correlated files found." : String) ≠ ("") := by
  constructor
  · have hftr : filesToReadOf st q = [] := by
      unfold filesToReadOf expandedFilesOf topMatchesOf sortedFilesOf dedupFirst
      rw [h]
      simp [sortByScoreDesc]
    unfold findRelevantContext
    rw [hftr]
    rfl
  · decide

def c5State : IndexerState := ⟨"/w", [], [], [], none⟩

def c5Fs : Fs := fun _ => none

/-- C5, witness: the no-match bundle on an empty index. -/
theorem noMatch_sentinel_witness :
    findRelevantContext c5State c5Fs ("anything here") = ("No correlated files found.")
    ∧ ("No correlated files found." : String) ≠ ("") :=
  noMatch_sentinel c5State c5Fs ("anything here") (by decide)

/-! ## C6: the implicit base-name symbol was dropped -/

/-- The state right after `hashMap.set` for a fresh file `parser.ts`,
as `indexContent` receives it. -/
def c6State : IndexerState :=
  ⟨"/w", [("/w/parser.ts", computeHash ("function doStuffX()"))], [], [], none⟩

def c6After : IndexerState :=
  indexContent c6State ("/w/parser.ts") ("function doStuffX()")

/-- C6: indexing `/w/parser.ts` (base name `parser`: 6 characters, not
one of the generic names) records the declaration capture `doStuffX`
but does *not* record the base name as an implicit symbol — the current
`indexContent` computes `path.parse(filePath).name` into a variable it
never uses, whereas the spec (and the older revision of `merkle.ts`)
record it. -/
theorem baseNameSymbol_missing :
    pathParseName ("/w/parser.ts") = ("parser")
    ∧ (("parser" : String).length ≥ 3 ∧ ("parser" : String) ∉ [("index"), ("main"), ("app")])
    ∧ mapGet c6After.symbolMap ("doStuffX") = some [("/w/parser.ts")]
    ∧ mapGet c6After.symbolMap ("parser") = none := by
  refine ⟨by decide, ⟨by decide, by decide⟩, by decide, by decide⟩

/-! ## C7: digest comparison is the sole staleness check -/

/-- C7: for a readable file within the size ceiling, `processFile`
leaves every table untouched exactly when the recorded digest for the
path equals the fresh content digest, and otherwise (including when no
digest is recorded at all) stores the digest and re-runs the content
indexing; the produced leaf carries the fresh digest either way. -/
theorem digestChange_detection (st : IndexerState) (fs : Fs) (p : String) (sz : Nat) (c : String)
    (hfs : fs p = some (FsEntry.file sz (some c))) (hsz : sz ≤ 512000) :
    (mapGet st.hashMap p = some (computeHash c) →
      processFile st fs p = (st, some ⟨computeHash c, p⟩))
    ∧ (mapGet st.hashMap p ≠ some (computeHash c) →
      processFile st fs p
        = (indexContent { st with hashMap := mapSet st.hashMap p (computeHash c) } p c,
           some ⟨computeHash c, p⟩)) := by
  have hsz2 : ¬ (sz > 512000) := by omega
  constructor
  · intro hmatch
    unfold processFile
    rw [hfs]
    simp [hsz2, hmatch]
  · intro hdiff
    unfold processFile
    rw [hfs]
    simp [hsz2, hdiff]

def c7Fs : Fs := fun s =>
  if s = ("/w/a.ts") then some (FsEntry.file 5 (some ("hello"))) else none

def c7State : IndexerState :=
  ⟨"/w", [("/w/a.ts", computeHash ("hello"))], [("parseConfig", ["/w/a.ts"])], [("/w/a.ts", [])], none⟩

/-- C7, witness: an unchanged digest leaves the state untouched. -/
theorem digestChange_detection_witness :
    processFile c7State c7Fs ("/w/a.ts") = (c7State, some ⟨computeHash ("hello"), "/w/a.ts"⟩) :=
  (digestChange_detection c7State c7Fs ("/w/a.ts") 5 ("hello") (by decide) (by norm_num)).1
    (by decide)

/-! ## C8: ordered dependency resolution -/

/-- The resolution procedure exactly as the spec words it: one ordered
candidate list — the directly resolved path, then the supported
extensions appended in order, then the directory-index conventions in
order — and the first candidate in the indexed set wins. -/
def resolveSpecOrdered (st : IndexerState) (currentFile importPath : String) : Option String :=
  let base := pathResolve (dirname currentFile) importPath
  (base :: (SUPPORTED_EXTENSIONS.map (fun e => base ++ e)
      ++ INDEX_EXTENSIONS.map (fun e => base ++ e))).find?
    (fun p => (mapGet st.hashMap p).isSome)

lemma resolveImportPath_eq_find (st : IndexerState) (f i : String) :
    resolveImportPath st f i = resolveSpecOrdered st f i := by
  unfold resolveImportPath resolveSpecOrdered
  by_cases hb : (mapGet st.hashMap (pathResolve (dirname f) i)).isSome
  · simp [List.find?_cons, hb]
  · cases hfind : (SUPPORTED_EXTENSIONS.map
        (fun e => pathResolve (dirname f) i ++ e)).find?
        (fun p => (mapGet st.hashMap p).isSome) with
    | some p1 => simp [List.find?_cons, hb, List.find?_append, hfind]
    | none => simp [List.find?_cons, hb, List.find?_append, hfind]

/-- C8: `resolveImportPath` implements the spec's ordered first-hit
procedure, and any resolved result is a member of the currently indexed
file set. -/
theorem resolveOrder_spec (st : IndexerState) (f i : String) :
    resolveImportPath st f i = resolveSpecOrdered st f i
    ∧ (∀ r, resolveImportPath st f i = some r → (mapGet st.hashMap r).isSome = true) := by
  refine ⟨resolveImportPath_eq_find st f i, ?_⟩
  intro r hr
  rw [resolveImportPath_eq_find st f i] at hr
  unfold resolveSpecOrdered at hr
  simp only [] at hr
  have h2 := List.find?_some hr
  exact h2

def c8State : IndexerState := ⟨"/w", [("/w/b.ts", "h:z")], [], [], none⟩

/-- C8, witness: a `./b` import from `/w/a.ts` resolves through the
`.ts` extension candidate, and the result is an indexed file. -/
theorem resolveOrder_witness :
    (mapGet c8State.hashMap ("/w/b.ts")).isSome = true :=
  (resolveOrder_spec c8State ("/w/a.ts") ("./b")).2 ("/w/b.ts") (by decide)

/-! ## C9: the bundle cap and seed order -/

/-- C9: the bundle never holds more than 8 files; the seed set is the
top 3 scored files in descending order, and the seeds form a prefix of
the capped bundle (dependency-expanded files only ever follow them). -/
theorem bundleCap_and_seeds (st : IndexerState) (q : String) :
    (filesToReadOf st q).length ≤ 8
    ∧ topMatchesOf st q = (sortedFilesOf st q).take 3
    ∧ dedupFirst (topMatchesOf st q) <+: filesToReadOf st q := by
  refine ⟨?_, rfl, ?_⟩
  · unfold filesToReadOf
    rw [List.length_take]
    exact min_le_left _ _
  · have h1 : dedupFirst (topMatchesOf st q) <+: expandedFilesOf st q := by
      unfold expandedFilesOf
      apply foldl_grows
      intro acc x
      apply foldl_grows
      intro acc2 y
      exact setAdd_grows acc2 y
    have h2 : (dedupFirst (topMatchesOf st q)).length ≤ 8 := by
      have h3 := foldl_setAdd_length (topMatchesOf st q) []
      have h4 : (topMatchesOf st q).length ≤ 3 := by
        unfold topMatchesOf
        rw [List.length_take]
        exact min_le_left _ _
      unfold dedupFirst
      simp only [List.length_nil, Nat.zero_add] at h3
      omega
    unfold filesToReadOf
    exact isPrefix_take h1 h2

/-! ## C10: symbol-table entries stay duplicate free -/

/-- C10: if every symbol's declaring-path list is duplicate free, it
stays so after any `addSymbol` call — the path is only appended when it
is not already present — so the declaring-file count in the weight
`10 / (count + 1)` counts distinct files. -/
theorem addSymbol_nodup (st : IndexerState) (sym fp : String)
    (h : ∀ p ∈ st.symbolMap, (p.2 : List String).Nodup) :
    ∀ p ∈ (addSymbol st sym fp).symbolMap, (p.2 : List String).Nodup := by
  intro p hp
  unfold addSymbol at hp
  by_cases hfilter : sym.length < 3 ∨ sym ∈ STOP_WORDS
  · rw [if_pos hfilter] at hp
    exact h p hp
  · rw [if_neg hfilter] at hp
    simp only [] at hp
    rcases mem_mapSet hp with h1 | h1
    · have hex : (mapGetD st.symbolMap sym []).Nodup := by
        unfold mapGetD
        cases hm : mapGet st.symbolMap sym with
        | none => simp
        | some l => simpa using h (sym, l) (mapGet_mem hm)
      by_cases hmem : fp ∈ mapGetD st.symbolMap sym []
      · rw [h1]
        simpa [hmem] using hex
      · rw [h1]
        simp only [hmem, if_neg, if_false]
        simp [List.nodup_append, hex, hmem]
    · exact h p h1

def c10State : IndexerState :=
  ⟨"/w", [], [("alphaOne", ["/w/a.ts"])], [], none⟩

/-- C10, witness: adding a fresh symbol to a duplicate-free table yields
a duplicate-free entry. -/
theorem addSymbol_nodup_witness :
    (["/w/b.ts"] : List String).Nodup :=
  addSymbol_nodup c10State ("betaTwo") ("/w/b.ts") (by decide)
    (("betaTwo"), ["/w/b.ts"]) (by decide)
